import Mathlib

/-!
Verification of the bulk-synchronization scripts of the repository
(`update_user_email_domains.py`, `update_user_permissions.py`,
`backup_user_permissions.py`, `bulk_create_users_from_csv.py`,
`update_users_new_projects_v2.py`,
`clinical_concepts_status_docus_count_ALL_subjects.py`).

Strings are modelled as `List Char`; JSON values are modelled by the
restricted `JVal` type carrying exactly the shapes these scripts
distinguish (null, string, string array, bool, int).  HTTP traffic is
modelled by explicit oracles (`Nat → NetResult` for the retrying
transport, `Nat → ListResponse` for the paginator) and every run
returns, besides its result, the explicit list of write calls it
issued, so dry-run purity and retry/backoff behaviour are directly
observable.
-/

namespace Scripts

/-- Python `str.strip()`: drop leading and trailing whitespace. -/
def stripChars (s : List Char) : List Char :=
  ((s.dropWhile Char.isWhitespace).reverse.dropWhile Char.isWhitespace).reverse

/-- Python `str.lower()` (ASCII case fold, as used on domains here). -/
def lowerStr (s : List Char) : List Char :=
  s.map Char.toLower

/-- `update_user_email_domains.EXCLUDE_DOMAIN`. -/
def EXCLUDE_DOMAIN : List Char := "xcures.com".toList

/-- `update_user_email_domains.split_email`: if the email has no `'@'`
return `(email, "")`, otherwise split at the LAST `'@'`
(Python `email.rsplit("@", 1)`). -/
def split_email (email : List Char) : List Char × List Char :=
  if '@' ∈ email then
    let r := email.reverse
    (((r.dropWhile (fun c => c ≠ '@')).drop 1).reverse,
     (r.takeWhile (fun c => c ≠ '@')).reverse)
  else
    (email, [])

/-- `update_user_email_domains.should_exclude`: compare the last-`'@'`
domain of the stripped email, lower-cased, against `xcures.com`. -/
def should_exclude (email : List Char) : Bool :=
  lowerStr (split_email (stripChars email)).2 = EXCLUDE_DOMAIN

/-- `update_user_email_domains.rewrite_domain`. -/
def rewrite_domain (email from_domain to_domain : List Char) : Option (List Char) :=
  let email := stripChars email
  if email = [] ∨ '@' ∉ email then none
  else
    let ld := split_email email
    if lowerStr ld.2 ≠ lowerStr from_domain then none
    else some (ld.1 ++ '@' :: to_domain)

/-- takeWhile/dropWhile of a list ending in `'@' :: l2` where the prefix
contains no `'@'`. -/
theorem takeWhile_dropWhile_at (l1 l2 : List Char) (h : '@' ∉ l1) :
    (l1 ++ '@' :: l2).takeWhile (fun c => c ≠ '@') = l1 ∧
    (l1 ++ '@' :: l2).dropWhile (fun c => c ≠ '@') = '@' :: l2 := by
  induction l1 with
  | nil =>
    constructor <;> simp [List.takeWhile, List.dropWhile]
  | cons c cs ih =>
    have hc : c ≠ '@' := by
      intro hc; exact h (by simp [hc])
    have hcs : '@' ∉ cs := by
      intro hm; exact h (by simp [hm])
    obtain ⟨h1, h2⟩ := ih hcs
    constructor
    · simpa [List.takeWhile, hc] using h1
    · simpa [List.dropWhile, hc] using h2

/-- `split_email` splits exactly at the last `'@'`: the local part (which
may itself contain `'@'` characters) is preserved verbatim. -/
theorem split_email_eq (local_ domain : List Char) (h : '@' ∉ domain) :
    split_email (local_ ++ '@' :: domain) = (local_, domain) := by
  have hmem : '@' ∈ local_ ++ '@' :: domain := by simp
  have hrev : (local_ ++ '@' :: domain).reverse
      = domain.reverse ++ '@' :: local_.reverse := by
    simp
  have hnd : '@' ∉ domain.reverse := by simpa using h
  obtain ⟨ht, hd⟩ := takeWhile_dropWhile_at domain.reverse local_.reverse hnd
  unfold split_email
  rw [if_pos hmem]
  simp only [hrev, ht, hd]
  simp

/-- C10: `rewrite_domain(email, from_domain, to_domain)` returns `none` when
the stripped email is empty, contains no `'@'`, or its last-`'@'` domain
differs case-insensitively from `from_domain`; otherwise it returns the
original local part verbatim (including any earlier `'@'` characters)
followed by `'@'` and `to_domain`.  `should_exclude` compares only the
last-`'@'` domain case-insensitively against `xcures.com`, so an email
without `'@'` is never excluded. -/
theorem c10_rewrite_domain_and_should_exclude :
    (∀ e f t : List Char, stripChars e = [] → rewrite_domain e f t = none) ∧
    (∀ e f t : List Char, '@' ∉ stripChars e → rewrite_domain e f t = none) ∧
    (∀ (e f t local_ domain : List Char), stripChars e = local_ ++ '@' :: domain →
        '@' ∉ domain → lowerStr domain ≠ lowerStr f → rewrite_domain e f t = none) ∧
    (∀ (e f t local_ domain : List Char), stripChars e = local_ ++ '@' :: domain →
        '@' ∉ domain → lowerStr domain = lowerStr f →
        rewrite_domain e f t = some (local_ ++ '@' :: t)) ∧
    (∀ e : List Char, '@' ∉ stripChars e → should_exclude e = false) ∧
    (∀ (e local_ domain : List Char), stripChars e = local_ ++ '@' :: domain →
        '@' ∉ domain → should_exclude e = decide (lowerStr domain = EXCLUDE_DOMAIN)) := by
  refine ⟨?_, ?_, ?_, ?_, ?_, ?_⟩
  · intro e f t h
    simp [rewrite_domain, h]
  · intro e f t h
    simp only [rewrite_domain]
    rw [if_pos (Or.inr h)]
  · intro e f t local_ domain h hnd hne
    have hat : '@' ∈ stripChars e := by rw [h]; simp
    have hne' : stripChars e ≠ [] := by rw [h]; simp
    simp only [rewrite_domain]
    rw [if_neg (by simp [hne', hat]), h, split_email_eq local_ domain hnd]
    rw [if_pos hne]
  · intro e f t local_ domain h hnd heq
    have hat : '@' ∈ stripChars e := by rw [h]; simp
    have hne' : stripChars e ≠ [] := by rw [h]; simp
    simp only [rewrite_domain]
    rw [if_neg (by simp [hne', hat]), h, split_email_eq local_ domain hnd]
    rw [if_neg (by simp [heq])]
  · intro e h
    have : split_email (stripChars e) = (stripChars e, []) := by
      unfold split_email
      rw [if_neg h]
    simp [should_exclude, this, lowerStr, EXCLUDE_DOMAIN]
  · intro e local_ domain h hnd
    simp [should_exclude, h, split_email_eq local_ domain hnd]

/-- Witness for C10: `rewrite_domain`, applied to an email whose local part
itself contains an `'@'` and whose domain matches `from_domain` only up to
case, rewrites exactly the last-`'@'` domain. -/
theorem c10_witness :
    rewrite_domain " a@b@Old.COM ".toList "old.com".toList "new.org".toList
      = some "a@b@new.org".toList :=
  c10_rewrite_domain_and_should_exclude.2.2.2.1 " a@b@Old.COM ".toList
    "old.com".toList "new.org".toList "a@b".toList "Old.COM".toList
    (by decide) (by decide) (by decide)

/-! JSON model: the value shapes these scripts distinguish, and insertion
ordered association lists standing for Python dicts. -/

/-- Restricted JSON value: null, string, array of strings, bool, int. -/
inductive JVal
  | null
  | s (v : List Char)
  | arr (v : List (List Char))
  | b (v : Bool)
  | n (v : Int)
  | obj0
deriving DecidableEq, Repr

/-- A Python dict, modelled as an insertion-ordered association list. -/
abbrev Dict := List (List Char × JVal)

/-- Python `d.get(k)`: first entry with the given key. -/
def getKey : Dict → List Char → Option JVal
  | [], _ => none
  | (k, v) :: rest, key => if k = key then some v else getKey rest key

/-- Python `d[k] = v`: replace in place if the key exists, else append. -/
def setKey (d : Dict) (k : List Char) (v : JVal) : Dict :=
  if (getKey d k).isSome then
    d.map (fun kv => if kv.1 = k then (k, v) else kv)
  else d ++ [(k, v)]

/-- Update payload of `update_user_email_domains.main` (apply branch):
copy the detail, set `email` to the new value, then drop every key whose
value is `None`. -/
def email_update_payload (detail : Dict) (new_email : List Char) : Dict :=
  (setKey detail "email".toList (JVal.s new_email)).filter
    (fun kv => kv.2 ≠ JVal.null)

/-- `update_user_permissions` UpdateUserDto key allow-list. -/
def allowed_keys : List (List Char) :=
  ["email", "firstName", "lastName", "roleCode", "npi", "tin",
   "permissions", "projectIds", "lastLogin", "loginCount", "blocked",
   "type", "organizationMembership", "identityProvider"].map String.toList

/-- `update_user_permissions.make_update_payload_from_user_detail`: keep
only allow-listed keys present in the detail, then normalize `None`
`permissions`/`projectIds` to empty arrays. -/
def make_update_payload_from_user_detail (user_detail : Dict) : Dict :=
  let payload := allowed_keys.filterMap
    (fun k => (getKey user_detail k).map (fun v => (k, v)))
  let payload := if getKey payload "permissions".toList = some JVal.null
    then setKey payload "permissions".toList (JVal.arr []) else payload
  let payload := if getKey payload "projectIds".toList = some JVal.null
    then setKey payload "projectIds".toList (JVal.arr []) else payload
  payload

/-! Mutation planners. -/

/-- `update_user_permissions.PERMISSION_TO_ADD`. -/
def PERMISSION_TO_ADD : List Char := "Summary_Checklist".toList

/-- Planner of `update_user_permissions.main` (with its always-true
`--only-missing` default): `none` means noop (permission already held),
otherwise the new permission list with `Summary_Checklist` appended. -/
def plan_permissions (permissions : List (List Char)) : Option (List (List Char)) :=
  if PERMISSION_TO_ADD ∈ permissions then none
  else some (permissions ++ [PERMISSION_TO_ADD])

/-- Merge a permissions plan back into the detail record. -/
def merge_plan_permissions (permissions : List (List Char)) : List (List Char) :=
  (plan_permissions permissions).getD permissions

/-- Planner of `update_users_new_projects_v2.main`: `none` means noop (no
target project missing), otherwise the project list with the missing
targets appended in target order. -/
def plan_projects (existing targets : List (List Char)) : Option (List (List Char)) :=
  match targets.filter (fun pid => pid ∉ existing) with
  | [] => none
  | missing => some (existing ++ missing)

/-- Merge a projects plan back into the detail record. -/
def merge_plan_projects (existing targets : List (List Char)) : List (List Char) :=
  (plan_projects existing targets).getD existing

/-- C8: re-running either mutation planner on the detail into which the
first run's result has been merged yields a noop — no duplicate
additions, and (these planners never remove) no removal of absent
values. -/
theorem c8_planner_idempotent :
    (∀ permissions : List (List Char),
        plan_permissions (merge_plan_permissions permissions) = none) ∧
    (∀ existing targets : List (List Char),
        plan_projects (merge_plan_projects existing targets) targets = none) := by
  constructor
  · intro permissions
    by_cases h : PERMISSION_TO_ADD ∈ permissions
    · simp [merge_plan_permissions, plan_permissions, h]
    · simp [merge_plan_permissions, plan_permissions, h]
  · intro existing targets
    rcases hfe : targets.filter (fun pid => pid ∉ existing) with _ | ⟨a, as⟩
    · have hm : merge_plan_projects existing targets = existing := by
        unfold merge_plan_projects plan_projects
        rw [hfe]
        rfl
      rw [hm]
      unfold plan_projects
      rw [hfe]
    · have hm : merge_plan_projects existing targets = existing ++ a :: as := by
        unfold merge_plan_projects plan_projects
        rw [hfe]
        rfl
      rw [hm]
      have hall : ∀ pid ∈ targets, pid ∈ existing ++ a :: as := by
        intro pid hp
        by_cases hpe : pid ∈ existing
        · exact List.mem_append_left _ hpe
        · refine List.mem_append_right _ ?_
          rw [← hfe]
          exact List.mem_filter.2 ⟨hp, by simp [hpe]⟩
      have h2 : targets.filter (fun pid => pid ∉ existing ++ a :: as) = [] := by
        rw [List.filter_eq_nil_iff]
        intro x hx
        simp [hall x hx]
      unfold plan_projects
      rw [h2]

/-! Association-list lemmas used for the payload frame properties. -/

theorem getKey_map_replace (d : Dict) (k₀ k : List Char) (v : JVal) (hne : k ≠ k₀) :
    getKey (d.map (fun kv => if kv.1 = k₀ then (k₀, v) else kv)) k = getKey d k := by
  induction d with
  | nil => rfl
  | cons hd tl ih =>
    obtain ⟨k1, v1⟩ := hd
    rw [List.map_cons]
    by_cases h1 : k1 = k₀
    · have hhead : (if ((k1, v1) : List Char × JVal).1 = k₀ then (k₀, v) else (k1, v1))
          = (k₀, v) := by
        simp [h1]
      rw [hhead]
      simp only [getKey]
      have hk0 : ¬k₀ = k := fun hc => hne hc.symm
      have hk1 : ¬k1 = k := fun hc => hne (hc ▸ h1)
      rw [if_neg hk0, if_neg hk1, ih]
    · have hhead : (if ((k1, v1) : List Char × JVal).1 = k₀ then (k₀, v) else (k1, v1))
          = (k1, v1) := by
        simp [h1]
      rw [hhead]
      simp only [getKey]
      by_cases h2 : k1 = k
      · rw [if_pos h2, if_pos h2]
      · rw [if_neg h2, if_neg h2, ih]

theorem getKey_append_of_none (d e : Dict) (k : List Char) :
    getKey d k = none → getKey (d ++ e) k = getKey e k := by
  induction d with
  | nil => intro _; rfl
  | cons hd tl ih =>
    obtain ⟨k1, v1⟩ := hd
    intro h
    by_cases h2 : k1 = k
    · rw [getKey, if_pos h2] at h
      exact absurd h (by simp)
    · rw [getKey, if_neg h2] at h
      rw [List.cons_append, getKey, if_neg h2]
      exact ih h

theorem getKey_append_of_some (d e : Dict) (k : List Char) (v : JVal) :
    getKey d k = some v → getKey (d ++ e) k = some v := by
  induction d with
  | nil => intro h; exact absurd h (by simp [getKey])
  | cons hd tl ih =>
    obtain ⟨k1, v1⟩ := hd
    intro h
    by_cases h2 : k1 = k
    · rw [getKey, if_pos h2] at h
      rw [List.cons_append, getKey, if_pos h2]
      exact h
    · rw [getKey, if_neg h2] at h
      rw [List.cons_append, getKey, if_neg h2]
      exact ih h

theorem getKey_setKey_ne (d : Dict) (k₀ k : List Char) (v : JVal) (hne : k ≠ k₀) :
    getKey (setKey d k₀ v) k = getKey d k := by
  unfold setKey
  by_cases hs : (getKey d k₀).isSome
  · rw [if_pos hs]
    exact getKey_map_replace d k₀ k v hne
  · rw [if_neg hs]
    cases hd : getKey d k with
    | none =>
      rw [getKey_append_of_none d _ k hd, getKey, if_neg (fun hc => hne hc.symm)]
      rfl
    | some w => exact getKey_append_of_some d _ k w hd

theorem getKey_eq_none_of_not_mem_keys (d : Dict) (k : List Char)
    (h : k ∉ d.map Prod.fst) : getKey d k = none := by
  induction d with
  | nil => rfl
  | cons hd tl ih =>
    obtain ⟨k1, v1⟩ := hd
    simp only [List.map_cons, List.mem_cons, not_or] at h
    rw [getKey, if_neg (fun hc => h.1 hc.symm)]
    exact ih h.2

theorem getKey_filter_nonNull (d : Dict) (k : List Char)
    (hnd : (d.map Prod.fst).Nodup) :
    getKey (d.filter (fun kv => kv.2 ≠ JVal.null)) k
      = (getKey d k).bind (fun v => if v = JVal.null then none else some v) := by
  induction d with
  | nil => rfl
  | cons hd tl ih =>
    obtain ⟨k1, v1⟩ := hd
    simp only [List.map_cons, List.nodup_cons] at hnd
    obtain ⟨hk1, htl⟩ := hnd
    by_cases h2 : k1 = k
    · subst h2
      by_cases hv : v1 = JVal.null
      · subst hv
        rw [List.filter_cons_of_neg (by simp)]
        rw [ih htl, getKey, if_pos rfl]
        rw [getKey_eq_none_of_not_mem_keys tl k1 hk1]
        rfl
      · rw [List.filter_cons_of_pos (by simp [hv])]
        rw [getKey, if_pos rfl, getKey, if_pos rfl]
        simp [hv]
    · by_cases hv : v1 = JVal.null
      · subst hv
        rw [List.filter_cons_of_neg (by simp)]
        rw [ih htl, getKey, if_neg h2]
      · rw [List.filter_cons_of_pos (by simp [hv])]
        rw [getKey, if_neg h2, getKey, if_neg h2]
        exact ih htl

theorem getKey_filterMap_pick (ks : List (List Char)) (d : Dict) (k : List Char) :
    getKey (ks.filterMap (fun k₀ => (getKey d k₀).map (fun v => (k₀, v)))) k
      = if k ∈ ks then getKey d k else none := by
  induction ks with
  | nil => rfl
  | cons k₀ ks ih =>
    cases hd : getKey d k₀ with
    | none =>
      rw [List.filterMap_cons]
      simp only [hd, Option.map_none']
      rw [ih]
      by_cases hk : k = k₀
      · subst hk
        simp [hd]
      · simp [hk]
    | some v =>
      rw [List.filterMap_cons]
      simp only [hd, Option.map_some']
      by_cases hk : k = k₀
      · subst hk
        rw [getKey, if_pos rfl, hd]
        simp
      · rw [getKey, if_neg (fun hc => hk hc.symm), ih]
        simp [hk]

/-- Concrete user detail whose `npi` field is JSON `null`. -/
def exampleDetailNull : Dict :=
  [("id".toList, JVal.s "u1".toList),
   ("email".toList, JVal.s "a@old.com".toList),
   ("npi".toList, JVal.null)]

/-- Concrete user detail carrying a `created` timestamp field. -/
def exampleDetailCreated : Dict :=
  [("id".toList, JVal.s "u1".toList),
   ("created".toList, JVal.s "2024-01-01".toList),
   ("email".toList, JVal.s "a@old.com".toList)]

/-- C9 counterexample: the submitted payloads do drop fields that are not
targeted by the ChangeSpec.  The email-domain payload drops the
`null`-valued `npi` field, and the permissions payload drops the
`created` field (not on the UpdateUserDto allow-list). -/
theorem c9_counterexample :
    getKey exampleDetailNull "npi".toList = some JVal.null ∧
    getKey (email_update_payload exampleDetailNull "a@new.org".toList) "npi".toList
      = none ∧
    getKey exampleDetailCreated "created".toList = some (JVal.s "2024-01-01".toList) ∧
    getKey (make_update_payload_from_user_detail exampleDetailCreated) "created".toList
      = none := by
  refine ⟨by decide, by decide, by decide, by decide⟩

theorem getKey_isSome_of_mem_keys (d : Dict) (k : List Char)
    (h : k ∈ d.map Prod.fst) : (getKey d k).isSome := by
  induction d with
  | nil => simp at h
  | cons hd tl ih =>
    obtain ⟨k1, v1⟩ := hd
    by_cases h2 : k1 = k
    · rw [getKey, if_pos h2]
      rfl
    · rw [getKey, if_neg h2]
      simp only [List.map_cons, List.mem_cons] at h
      rcases h with h | h
      · exact absurd h.symm h2
      · exact ih h

theorem keys_setKey_nodup (d : Dict) (k₀ : List Char) (v : JVal)
    (hnd : (d.map Prod.fst).Nodup) :
    ((setKey d k₀ v).map Prod.fst).Nodup := by
  unfold setKey
  by_cases hs : (getKey d k₀).isSome
  · rw [if_pos hs, List.map_map]
    have : ∀ kv ∈ d, (Prod.fst ∘ fun kv => if kv.1 = k₀ then (k₀, v) else kv) kv
        = Prod.fst kv := by
      intro kv _
      by_cases hkv : kv.1 = k₀
      · simp [hkv]
      · simp [hkv]
    rw [List.map_congr_left this]
    exact hnd
  · rw [if_neg hs, List.map_append]
    have hk0 : k₀ ∉ d.map Prod.fst := by
      intro hmem
      exact hs (getKey_isSome_of_mem_keys d k₀ hmem)
    simp only [List.map_cons, List.map_nil]
    rw [List.nodup_append]
    refine ⟨hnd, List.nodup_singleton _, ?_⟩
    intro a ha hb
    simp only [List.mem_singleton] at hb
    exact hk0 (hb ▸ ha)

theorem getKey_make_update_payload (d : Dict) (k : List Char)
    (hp : k ≠ "permissions".toList) (hq : k ≠ "projectIds".toList) :
    getKey (make_update_payload_from_user_detail d) k
      = if k ∈ allowed_keys then getKey d k else none := by
  rw [← getKey_filterMap_pick allowed_keys d k]
  simp only [make_update_payload_from_user_detail]
  split_ifs with h1 h2 h3
  · rw [getKey_setKey_ne _ _ _ _ hq, getKey_setKey_ne _ _ _ _ hp]
  · rw [getKey_setKey_ne _ _ _ _ hp]
  · rw [getKey_setKey_ne _ _ _ _ hq]
  · rfl

/-- C9 (amended): what the payloads actually preserve.  The email-domain
payload keeps every non-`email` field of the detail except that
`null`-valued fields are dropped; the permissions payload contains a key
iff it is on the UpdateUserDto allow-list and present in the detail, with
value passed through unchanged (apart from the `permissions`/`projectIds`
null-to-empty-array normalization). -/
theorem c9_payload_frame_amended :
    (∀ (d : Dict) (v k : List Char), k ≠ "email".toList →
        (d.map Prod.fst).Nodup →
        getKey (email_update_payload d v) k
          = (getKey d k).bind (fun w => if w = JVal.null then none else some w)) ∧
    (∀ (d : Dict) (k : List Char), k ∉ allowed_keys →
        getKey (make_update_payload_from_user_detail d) k = none) ∧
    (∀ (d : Dict) (k : List Char), k ∈ allowed_keys →
        k ≠ "permissions".toList → k ≠ "projectIds".toList →
        getKey (make_update_payload_from_user_detail d) k = getKey d k) := by
  refine ⟨?_, ?_, ?_⟩
  · intro d v k hk hnd
    unfold email_update_payload
    rw [getKey_filter_nonNull _ k (keys_setKey_nodup d _ _ hnd)]
    rw [getKey_setKey_ne d _ k _ hk]
  · intro d k hk
    have hp : k ≠ "permissions".toList := by
      intro hc
      exact hk (hc ▸ (by decide : "permissions".toList ∈ allowed_keys))
    have hq : k ≠ "projectIds".toList := by
      intro hc
      exact hk (hc ▸ (by decide : "projectIds".toList ∈ allowed_keys))
    rw [getKey_make_update_payload d k hp hq, if_neg hk]
  · intro d k hk hp hq
    rw [getKey_make_update_payload d k hp hq, if_pos hk]

/-- Witness for C9 (amended): a non-`email`, non-`null` field (`id`) is
passed through by the email-domain payload. -/
theorem c9_amended_witness :
    getKey (email_update_payload exampleDetailNull "a@new.org".toList) "id".toList
      = ((getKey exampleDetailNull "id".toList).bind
          (fun w => if w = JVal.null then none else some w)) :=
  c9_payload_frame_amended.1 exampleDetailNull "a@new.org".toList "id".toList
    (by decide) (by decide)

/-! Per-entity pipelines: each takes the (abstract) outcome of its detail
fetch plus the run flags, and returns the terminal per-entity record
together with the explicit list of write calls it issued. -/

/-- A mutating HTTP call issued by a pipeline. -/
inductive WriteCall
  | put (payload : Dict)
  | post (payload : Dict)
deriving DecidableEq, Repr

/-- Terminal per-entity record: the counter the scripts increment, or the
status string written to the results CSV (`created`/`dry_run`/`failed`
in `bulk_create_users_from_csv`). -/
inductive RowStatus
  | created
  | updated
  | dryRun
  | skipped
  | excluded
  | failed
deriving DecidableEq, Repr

/-- Python `str(d.get(k) or "")` for a string-or-null-or-absent field. -/
def getStr (d : Dict) (k : List Char) : List Char :=
  match getKey d k with
  | some (JVal.s v) => v
  | _ => []

/-- Python `d.get(k) or []` followed by the `isinstance(…, list)` guard:
the string-array value of a field, or `[]`. -/
def getStrArr (d : Dict) (k : List Char) : List (List Char) :=
  match getKey d k with
  | some (JVal.arr v) => v
  | _ => []

/-- Per-user step of `update_user_email_domains.main` (lines 342-380):
fetch detail, check empty email, exclusion, rewrite, `--only-missing`,
then dry-run or PUT of the preserved-detail payload. -/
def email_process_user (fetch : Except (List Char) Dict)
    (from_domain to_domain : List Char) (only_missing dry_run : Bool) :
    RowStatus × List WriteCall :=
  match fetch with
  | .error _ => (.failed, [])
  | .ok detail =>
    let email := stripChars (getStr detail "email".toList)
    if email = [] then (.skipped, [])
    else if should_exclude email then (.excluded, [])
    else
      match rewrite_domain email from_domain to_domain with
      | none => (.skipped, [])
      | some new_email =>
        if only_missing ∧ new_email = email then (.skipped, [])
        else if dry_run then (.updated, [])
        else (.updated, [WriteCall.put (email_update_payload detail new_email)])

/-- Per-user step of `update_user_permissions.main` (lines 366-409):
fetch detail, skip when `Summary_Checklist` is already held (with the
always-true `--only-missing` default), else append it, build the payload,
then dry-run or PUT. -/
def perm_process_user (fetch : Except (List Char) Dict)
    (only_missing dry_run : Bool) : RowStatus × List WriteCall :=
  match fetch with
  | .error _ => (.failed, [])
  | .ok detail =>
    let permissions := getStrArr detail "permissions".toList
    let already_has := PERMISSION_TO_ADD ∈ permissions
    if already_has ∧ only_missing then (.skipped, [])
    else
      let permissions := if already_has then permissions
        else permissions ++ [PERMISSION_TO_ADD]
      let payload := setKey (make_update_payload_from_user_detail detail)
        "permissions".toList (JVal.arr permissions)
      if dry_run then (.updated, [])
      else (.updated, [WriteCall.put payload])

/-! `bulk_create_users_from_csv` constants and payload builder. -/

def DEFAULT_PERMISSIONS : List (List Char) :=
  ["User_Read".toList, "User_Create".toList]

def DEFAULT_PROJECT_IDS : List (List Char) :=
  ["b114ceeb-2adf-4c80-aae2-b6ccae3eac7b".toList]

/-- A CSV row: insertion-ordered map from column name to cell text. -/
abbrev CsvRow := List (List Char × List Char)

/-- Python `row.get(k)` with `None`/absent collapsing to the empty string. -/
def getRowField : CsvRow → List Char → List Char
  | [], _ => []
  | (k, v) :: rest, key => if k = key then v else getRowField rest key

/-- `bulk_create_users_from_csv.build_user_payload`. -/
def build_user_payload (row : CsvRow) (user_id : List Char) : Dict :=
  let payload : Dict :=
    [("id".toList, JVal.s user_id),
     ("identityProviderId".toList, JVal.s ("auth0|".toList ++ user_id)),
     ("permissions".toList, JVal.arr DEFAULT_PERMISSIONS),
     ("projectIds".toList, JVal.arr DEFAULT_PROJECT_IDS),
     ("email".toList, JVal.s (stripChars (getRowField row "email".toList))),
     ("firstName".toList, JVal.s (stripChars (getRowField row "firstName".toList))),
     ("lastName".toList, JVal.s (stripChars (getRowField row "lastName".toList))),
     ("type".toList, JVal.s "patient_registry_user".toList),
     ("roleCode".toList, JVal.s (stripChars (getRowField row "roleCode".toList))),
     ("npi".toList, JVal.s (stripChars (getRowField row "npi".toList))),
     ("tin".toList, JVal.s (stripChars (getRowField row "tin".toList))),
     ("identityProvider".toList, JVal.s "auth0".toList),
     ("organizationMembership".toList, JVal.obj0),
     ("blocked".toList, JVal.b false)]
  payload.filter (fun kv => kv.2 ≠ JVal.null)

/-- Per-row step of `bulk_create_users_from_csv.main` (lines 437-469):
validate the required columns, then either record a `dry_run` row (no
write) or POST the built payload and record `created`. -/
def bulk_process_row (row : CsvRow) (user_id : List Char) (dry_run : Bool) :
    RowStatus × List WriteCall :=
  let email := stripChars (getRowField row "email".toList)
  if email = [] then (.failed, [])
  else if stripChars (getRowField row "firstName".toList) = [] then (.failed, [])
  else if stripChars (getRowField row "lastName".toList) = [] then (.failed, [])
  else if dry_run then (.dryRun, [])
  else (.created, [WriteCall.post (build_user_payload row user_id)])

/-! Whole-run folds and process exit codes. -/

/-- Counters each script prints at the end of a run. -/
structure RunTally where
  created : Nat
  updated : Nat
  skipped : Nat
  excluded : Nat
  failed : Nat
deriving DecidableEq, Repr

def zeroTally : RunTally := ⟨0, 0, 0, 0, 0⟩

/-- Bump the counter matching a terminal per-entity record. -/
def RunTally.bump (t : RunTally) : RowStatus → RunTally
  | .created => { t with created := t.created + 1 }
  | .updated => { t with updated := t.updated + 1 }
  | .dryRun => { t with created := t.created }
  | .skipped => { t with skipped := t.skipped + 1 }
  | .excluded => { t with excluded := t.excluded + 1 }
  | .failed => { t with failed := t.failed + 1 }

/-- Fold a list of per-entity results into counters plus the concatenated
write trace. -/
def tallyRun : List (RowStatus × List WriteCall) → RunTally × List WriteCall
  | [] => (zeroTally, [])
  | (st, ws) :: rest =>
    let (t, tws) := tallyRun rest
    (t.bump st, ws ++ tws)

/-- The loop of `update_user_email_domains.main` over the listed users. -/
def email_run (fetches : List (Except (List Char) Dict))
    (from_domain to_domain : List Char) (only_missing dry_run : Bool) :
    RunTally × List WriteCall :=
  tallyRun (fetches.map
    (fun f => email_process_user f from_domain to_domain only_missing dry_run))

/-- The loop of `update_user_permissions.main` over the listed users. -/
def perm_run (fetches : List (Except (List Char) Dict))
    (only_missing dry_run : Bool) : RunTally × List WriteCall :=
  tallyRun (fetches.map (fun f => perm_process_user f only_missing dry_run))

/-- The loop of `bulk_create_users_from_csv.main` over the CSV rows,
given the per-row generated UUIDs. -/
def bulk_run (rows : List (CsvRow × List Char)) (dry_run : Bool) :
    RunTally × List WriteCall :=
  tallyRun (rows.map (fun rid => bulk_process_row rid.1 rid.2 dry_run))

/-- Exit path of `update_user_email_domains.main`: conflicting mode flags
or a protected `--from-domain`/`--to-domain` exit 2; a missing token
raises (uncaught, Python exits 1); an empty user list exits 0; and after
a completed run the script returns 0 regardless of failures. -/
def email_main (apply_flag dry_run_flag token_present : Bool)
    (from_domain to_domain : List Char)
    (fetches : List (Except (List Char) Dict)) (only_missing : Bool) :
    Nat × RunTally × List WriteCall :=
  if apply_flag ∧ dry_run_flag then (2, zeroTally, [])
  else
    let dry_run := if ¬apply_flag ∧ ¬dry_run_flag then true else dry_run_flag
    if lowerStr from_domain = lowerStr EXCLUDE_DOMAIN then (2, zeroTally, [])
    else if lowerStr to_domain = lowerStr EXCLUDE_DOMAIN then (2, zeroTally, [])
    else if ¬token_present then (1, zeroTally, [])
    else if fetches.isEmpty then (0, zeroTally, [])
    else
      let r := email_run fetches from_domain to_domain only_missing dry_run
      (0, r)

/-- Exit path of `update_user_permissions.main`: missing bearer exits 2;
an empty user list exits 0; otherwise `return 1 if failed else 0`. -/
def perm_main (bearer_present dry_run : Bool)
    (fetches : List (Except (List Char) Dict)) :
    Nat × RunTally × List WriteCall :=
  if ¬bearer_present then (2, zeroTally, [])
  else if fetches.isEmpty then (0, zeroTally, [])
  else
    let r := perm_run fetches true dry_run
    (if r.1.failed ≠ 0 then 1 else 0, r)

/-- Exit path of `bulk_create_users_from_csv.main`: missing token or a
malformed CSV exits 2; an empty row list exits 0; otherwise non-zero only
when failures occurred in apply mode. -/
def bulk_main (token_present csv_ok : Bool) (rows : List (CsvRow × List Char))
    (dry_run : Bool) : Nat × RunTally × List WriteCall :=
  if ¬token_present then (2, zeroTally, [])
  else if ¬csv_ok then (2, zeroTally, [])
  else if rows.isEmpty then (0, zeroTally, [])
  else
    let r := bulk_run rows dry_run
    (if ¬dry_run ∧ 0 < r.1.failed then 1 else 0, r)

/-! Helper lemmas about dry-run runs. -/

theorem email_process_user_dry_writes (f : Except (List Char) Dict)
    (fd td : List Char) (om : Bool) :
    (email_process_user f fd td om true).2 = [] := by
  rcases f with e | detail
  · rfl
  · simp only [email_process_user]
    repeat' split
    all_goals first | rfl | exact absurd trivial (by assumption)

theorem perm_process_user_dry_writes (f : Except (List Char) Dict) (om : Bool) :
    (perm_process_user f om true).2 = [] := by
  rcases f with e | detail
  · rfl
  · simp only [perm_process_user]
    repeat' split
    all_goals first | rfl | exact absurd trivial (by assumption)

theorem bulk_process_row_dry_writes (row : CsvRow) (uid : List Char) :
    (bulk_process_row row uid true).2 = [] := by
  simp only [bulk_process_row]
  repeat' split
  all_goals first | rfl | exact absurd trivial (by assumption)

theorem tallyRun_writes_nil (l : List (RowStatus × List WriteCall))
    (h : ∀ p ∈ l, p.2 = []) : (tallyRun l).2 = [] := by
  induction l with
  | nil => rfl
  | cons p rest ih =>
    obtain ⟨st, ws⟩ := p
    have hw : ws = [] := h (st, ws) (List.mem_cons_self _ _)
    have hr : (tallyRun rest).2 = [] :=
      ih (fun q hq => h q (List.mem_cons_of_mem _ hq))
    rcases hrr : tallyRun rest with ⟨t, tws⟩
    rw [hrr] at hr
    simp only [tallyRun, hrr]
    rw [hw]
    simpa using hr

/-- Detail of a user who does not yet hold `Summary_Checklist`. -/
def exampleDetailNoChecklist : Dict :=
  [("id".toList, JVal.s "u3".toList),
   ("permissions".toList, JVal.arr ["User_Read".toList])]

/-- C1 counterexample: in `update_user_permissions`, a dry run over a
non-noop user issues no write, but the user is recorded under the
`updated` counter — there is no `dry_run` record at all. -/
theorem c1_counterexample :
    perm_process_user (Except.ok exampleDetailNoChecklist) true true
      = (RowStatus.updated, []) ∧ RowStatus.updated ≠ RowStatus.dryRun := by
  exact ⟨by decide, by decide⟩

/-- C1 (amended): with `applyMode=false` no write call (PUT or POST) is
ever issued by any of the three scripts; each valid non-noop entity is
recorded, but only `bulk_create_users_from_csv` uses a `dry_run` status —
the email-domain and permissions scripts count such entities under their
`updated` counter. -/
theorem c1_dry_run_purity_amended :
    (∀ (fetches : List (Except (List Char) Dict)) (fd td : List Char) (om : Bool),
        (email_run fetches fd td om true).2 = []) ∧
    (∀ (fetches : List (Except (List Char) Dict)) (om : Bool),
        (perm_run fetches om true).2 = []) ∧
    (∀ rows : List (CsvRow × List Char), (bulk_run rows true).2 = []) ∧
    (∀ (row : CsvRow) (uid : List Char),
        stripChars (getRowField row "email".toList) ≠ [] →
        stripChars (getRowField row "firstName".toList) ≠ [] →
        stripChars (getRowField row "lastName".toList) ≠ [] →
        bulk_process_row row uid true = (RowStatus.dryRun, [])) ∧
    (∀ (detail : Dict) (om : Bool),
        ¬(PERMISSION_TO_ADD ∈ getStrArr detail "permissions".toList ∧ om = true) →
        perm_process_user (Except.ok detail) om true = (RowStatus.updated, [])) := by
  refine ⟨?_, ?_, ?_, ?_, ?_⟩
  · intro fetches fd td om
    refine tallyRun_writes_nil _ ?_
    intro p hp
    obtain ⟨f, _, hf⟩ := List.mem_map.1 hp
    rw [← hf]
    exact email_process_user_dry_writes f fd td om
  · intro fetches om
    refine tallyRun_writes_nil _ ?_
    intro p hp
    obtain ⟨f, _, hf⟩ := List.mem_map.1 hp
    rw [← hf]
    exact perm_process_user_dry_writes f om
  · intro rows
    refine tallyRun_writes_nil _ ?_
    intro p hp
    obtain ⟨rid, _, hf⟩ := List.mem_map.1 hp
    rw [← hf]
    exact bulk_process_row_dry_writes rid.1 rid.2
  · intro row uid h1 h2 h3
    simp only [bulk_process_row]
    rw [if_neg h1, if_neg h2, if_neg h3]
    simp
  · intro detail om h
    simp only [perm_process_user]
    rw [if_neg h]
    simp

/-- Witness for C1 (amended): a concrete valid CSV row in dry-run mode is
recorded as `dry_run` with no write. -/
theorem c1_amended_witness :
    bulk_process_row
      [("email".toList, "a@b.c".toList), ("firstName".toList, "A".toList),
       ("lastName".toList, "B".toList)] "u-1".toList true
      = (RowStatus.dryRun, []) :=
  c1_dry_run_purity_amended.2.2.2.1 _ _ (by decide) (by decide) (by decide)

/-- C2: an entity whose email satisfies the exclusion rule is recorded as
`excluded` with no write, before the rewrite rule is consulted, regardless
of `applyMode`, `--only-missing`, or whether the rewrite would match. -/
theorem c2_exclusion_precedence (detail : Dict) (from_domain to_domain : List Char)
    (only_missing dry_run : Bool)
    (h : should_exclude (stripChars (getStr detail "email".toList)) = true) :
    email_process_user (Except.ok detail) from_domain to_domain only_missing dry_run
      = (RowStatus.excluded, []) := by
  have hne : stripChars (getStr detail "email".toList) ≠ [] := by
    intro hc
    rw [hc] at h
    exact absurd h (by decide)
  simp only [email_process_user]
  rw [if_neg hne, if_pos h]

/-- Detail of a user with a protected `@xcures.com` email (odd case and
padding included). -/
def exampleExcludedDetail : Dict :=
  [("id".toList, JVal.s "u2".toList),
   ("email".toList, JVal.s " bob@XCURES.com ".toList)]

/-- Witness for C2: in apply mode, with a rewrite rule that would match
the protected domain shape, the excluded user is still untouched. -/
theorem c2_witness :
    email_process_user (Except.ok exampleExcludedDetail) "xcures.com".toList
      "new.org".toList false false = (RowStatus.excluded, []) :=
  c2_exclusion_precedence exampleExcludedDetail "xcures.com".toList
    "new.org".toList false false (by decide)

/-- C4 counterexample: `update_user_email_domains.main`, run in apply
mode over one user whose detail fetch fails, records one failure and
still exits 0 — the claim says the exit code must then be non-zero. -/
theorem c4_counterexample :
    (email_main true false true "old.com".toList "new.org".toList
        [Except.error "HTTP 404".toList] false).1 = 0 ∧
    (email_main true false true "old.com".toList "new.org".toList
        [Except.error "HTTP 404".toList] false).2.1.failed = 1 := by
  exact ⟨by decide, by decide⟩

/-- C4 (amended): `update_user_permissions` exits 0 iff no entity failed;
`bulk_create_users_from_csv` exits 0 in dry-run mode regardless of
failures and, in apply mode, exits 0 iff no row failed;
`update_user_email_domains` always exits 0 after a completed run, even
with failures; missing-credential and malformed-CSV preconditions exit
non-zero (2, or 1 for the email script's uncaught token error). -/
theorem c4_exit_codes_amended :
    (∀ (dr : Bool) (fetches : List (Except (List Char) Dict)),
        (perm_main true dr fetches).1 = 0 ↔
          (perm_main true dr fetches).2.1.failed = 0) ∧
    (∀ (fd td : List Char) (om : Bool) (fetches : List (Except (List Char) Dict)),
        lowerStr fd ≠ lowerStr EXCLUDE_DOMAIN →
        lowerStr td ≠ lowerStr EXCLUDE_DOMAIN →
        (email_main true false true fd td fetches om).1 = 0) ∧
    (∀ rows : List (CsvRow × List Char), (bulk_main true true rows true).1 = 0) ∧
    (∀ rows : List (CsvRow × List Char),
        (bulk_main true true rows false).1 = 0 ↔
          (bulk_main true true rows false).2.1.failed = 0) ∧
    (∀ (dr : Bool) (fetches : List (Except (List Char) Dict)),
        (perm_main false dr fetches).1 = 2) ∧
    (∀ (fd td : List Char) (om : Bool) (fetches : List (Except (List Char) Dict)),
        lowerStr fd ≠ lowerStr EXCLUDE_DOMAIN →
        lowerStr td ≠ lowerStr EXCLUDE_DOMAIN →
        (email_main true false false fd td fetches om).1 = 1) ∧
    (∀ (rows : List (CsvRow × List Char)) (dr : Bool),
        (bulk_main false true rows dr).1 = 2 ∧ (bulk_main true false rows dr).1 = 2) := by
  refine ⟨?_, ?_, ?_, ?_, ?_, ?_, ?_⟩
  · intro dr fetches
    simp only [perm_main]
    rw [if_neg (by simp)]
    by_cases he : fetches.isEmpty
    · rw [if_pos he]
      simp [zeroTally]
    · rw [if_neg he]
      by_cases hf : (perm_run fetches true dr).1.failed = 0
      · simp [hf]
      · simp [hf]
  · intro fd td om fetches h1 h2
    simp only [email_main]
    rw [if_neg (by simp), if_neg h1, if_neg h2, if_neg (by simp)]
    by_cases he : fetches.isEmpty
    · rw [if_pos he]
    · rw [if_neg he]
  · intro rows
    simp only [bulk_main]
    rw [if_neg (by simp), if_neg (by simp)]
    by_cases he : rows.isEmpty
    · rw [if_pos he]
    · rw [if_neg he]
      simp
  · intro rows
    simp only [bulk_main]
    rw [if_neg (by simp), if_neg (by simp)]
    by_cases he : rows.isEmpty
    · rw [if_pos he]
      simp [zeroTally]
    · rw [if_neg he]
      by_cases hf : (bulk_run rows false).1.failed = 0
      · simp [hf]
      · simp [hf, Nat.pos_of_ne_zero hf]
  · intro dr fetches
    simp [perm_main]
  · intro fd td om fetches h1 h2
    simp only [email_main]
    rw [if_neg (by simp), if_neg h1, if_neg h2, if_pos (by simp)]
  · intro rows dr
    constructor
    · simp [bulk_main]
    · simp [bulk_main]

/-- Witness for C4 (amended): the email script in apply mode with an
ordinary domain pair exits 0. -/
theorem c4_amended_witness :
    (email_main true false true "old.com".toList "new.org".toList
        [Except.error "HTTP 404".toList] false).1 = 0 :=
  c4_exit_codes_amended.2.1 "old.com".toList "new.org".toList false
    [Except.error "HTTP 404".toList] (by decide) (by decide)

/-! Retrying transport.  The network is an oracle mapping the (1-based)
attempt number to either an HTTP response or a network-level error. -/

/-- Outcome of one HTTP attempt. -/
inductive NetResult
  | resp (status : Nat) (body : List Char)
  | netError (msg : List Char)
deriving DecidableEq, Repr

/-- Terminal outcome of a `request_with_retry` call. -/
inductive TransportOutcome
  | ok (status : Nat) (body : List Char)
  | raiseHttp (status : Nat) (preview : List Char)
  | exhaustedResp (lastStatus : Nat) (preview : List Char)
  | exhaustedNet (lastExc : Option (List Char))
deriving DecidableEq, Repr

/-- The retryable status set shared by every script. -/
def retryable_status (s : Nat) : Bool :=
  s == 429 || s == 500 || s == 502 || s == 503 || s == 504

/-- `backup_user_permissions.safe_json_preview`: strip, then truncate to
`limit` characters with an ellipsis. -/
def safe_json_preview (text : List Char) (limit : Nat) : List Char :=
  let text := stripChars text
  if text.length ≤ limit then text else text.take limit ++ ['…']

/-- Python `replace("\\n", " ")` of `update_user_permissions` line 99: the
two-character backslash-n sequence becomes a space. -/
def replaceBackslashN : List Char → List Char
  | '\\' :: 'n' :: rest => ' ' :: replaceBackslashN rest
  | c :: rest => c :: replaceBackslashN rest
  | [] => []

/-- Body preview of `update_user_permissions.request_with_retry`
(lines 99-101). -/
def perm_body_preview (text : List Char) : List Char :=
  let t := replaceBackslashN (stripChars text)
  if t.length > 800 then t.take 800 ++ "...<truncated>".toList else t

/-- A finished retry loop: outcome, number of attempts actually made, and
the trace of back-off sleeps (seconds). -/
structure RetryRun where
  outcome : TransportOutcome
  attempts : Nat
  sleeps : List ℚ
deriving DecidableEq, Repr

/-- `backup_user_permissions.request_with_retry` (also the shape shared by
`update_user_email_domains` and `bulk_create_users_from_csv`): 2xx
returns, retryable statuses and network errors sleep
`backoff * 2^(attempt-1)` and retry, other statuses raise immediately,
and exhaustion raises with the last status and a bounded body preview. -/
def backup_rwr_go (oracle : Nat → NetResult) (backoff : ℚ) :
    Nat → Nat → Option (Nat × List Char) → Option (List Char) → RetryRun
  | attempt, 0, lastResp, lastExc =>
    match lastResp with
    | some (s, b) => ⟨.exhaustedResp s (safe_json_preview b 800), attempt - 1, []⟩
    | none => ⟨.exhaustedNet lastExc, attempt - 1, []⟩
  | attempt, remaining + 1, lastResp, lastExc =>
    match oracle attempt with
    | .resp s b =>
      if 200 ≤ s ∧ s < 300 then ⟨.ok s b, attempt, []⟩
      else if retryable_status s then
        let r := backup_rwr_go oracle backoff (attempt + 1) remaining (some (s, b)) lastExc
        ⟨r.outcome, r.attempts, backoff * 2 ^ (attempt - 1) :: r.sleeps⟩
      else ⟨.raiseHttp s (safe_json_preview b 800), attempt, []⟩
    | .netError m =>
      let r := backup_rwr_go oracle backoff (attempt + 1) remaining lastResp (some m)
      ⟨r.outcome, r.attempts, backoff * 2 ^ (attempt - 1) :: r.sleeps⟩

def backup_request_with_retry (oracle : Nat → NetResult) (maxRetries : Nat)
    (backoff : ℚ) : RetryRun :=
  backup_rwr_go oracle backoff 1 maxRetries none none

/-- A finished retry loop of `update_user_permissions.request_with_retry`
(its sleeps are whole seconds). -/
structure RetryRunN where
  outcome : TransportOutcome
  attempts : Nat
  sleeps : List Nat
deriving DecidableEq, Repr

/-- `update_user_permissions.request_with_retry`: retryable statuses and
network errors sleep `min(2^attempt, 20)` and retry; any other response
(2xx or not) is returned; exhaustion raises with the last status and a
bounded preview. -/
def perm_rwr_go (oracle : Nat → NetResult) :
    Nat → Nat → Option (Nat × List Char) → Option (List Char) → RetryRunN
  | attempt, 0, lastResp, lastExc =>
    match lastResp with
    | some (s, b) => ⟨.exhaustedResp s (perm_body_preview b), attempt - 1, []⟩
    | none => ⟨.exhaustedNet lastExc, attempt - 1, []⟩
  | attempt, remaining + 1, lastResp, lastExc =>
    match oracle attempt with
    | .resp s b =>
      if retryable_status s then
        let r := perm_rwr_go oracle (attempt + 1) remaining (some (s, b)) lastExc
        ⟨r.outcome, r.attempts, min (2 ^ attempt) 20 :: r.sleeps⟩
      else ⟨.ok s b, attempt, []⟩
    | .netError m =>
      let r := perm_rwr_go oracle (attempt + 1) remaining lastResp (some m)
      ⟨r.outcome, r.attempts, min (2 ^ attempt) 20 :: r.sleeps⟩

def perm_request_with_retry (oracle : Nat → NetResult) (maxRetries : Nat) :
    RetryRunN :=
  perm_rwr_go oracle 1 maxRetries none none

theorem backup_go_all_503 (oracle : Nat → NetResult) (backoff : ℚ) (body : List Char)
    (horacle : ∀ a, oracle a = .resp 503 body) :
    ∀ (remaining attempt : Nat) (lastResp : Option (Nat × List Char))
      (lastExc : Option (List Char)), 0 < remaining →
      backup_rwr_go oracle backoff attempt remaining lastResp lastExc
        = ⟨.exhaustedResp 503 (safe_json_preview body 800), attempt + remaining - 1,
           (List.range remaining).map (fun i => backoff * 2 ^ (attempt + i - 1))⟩ := by
  intro remaining
  induction remaining with
  | zero => intro attempt lastResp lastExc h; omega
  | succ rem ih =>
    intro attempt lastResp lastExc _
    simp only [backup_rwr_go, horacle attempt]
    rw [if_neg (by decide : ¬(200 ≤ 503 ∧ 503 < 300)),
        if_pos (by decide : retryable_status 503 = true)]
    cases rem with
    | zero =>
      simp only [backup_rwr_go]
      simp [List.range_succ]
    | succ rem2 =>
      rw [ih (attempt + 1) (some (503, body)) lastExc (Nat.succ_pos _)]
      simp only [RetryRun.mk.injEq, true_and]
      refine ⟨by omega, ?_⟩
      conv_rhs => rw [List.range_succ_eq_map, List.map_cons, List.map_map]
      refine List.cons_eq_cons.2 ⟨rfl, ?_⟩
      refine List.map_congr_left ?_
      intro i _
      show backoff * 2 ^ (attempt + 1 + i - 1) = backoff * 2 ^ (attempt + Nat.succ i - 1)
      have he : attempt + 1 + i - 1 = attempt + Nat.succ i - 1 := by omega
      rw [he]

theorem perm_go_all_503 (oracle : Nat → NetResult) (body : List Char)
    (horacle : ∀ a, oracle a = .resp 503 body) :
    ∀ (remaining attempt : Nat) (lastResp : Option (Nat × List Char))
      (lastExc : Option (List Char)), 0 < remaining →
      perm_rwr_go oracle attempt remaining lastResp lastExc
        = ⟨.exhaustedResp 503 (perm_body_preview body), attempt + remaining - 1,
           (List.range remaining).map (fun i => min (2 ^ (attempt + i)) 20)⟩ := by
  intro remaining
  induction remaining with
  | zero => intro attempt lastResp lastExc h; omega
  | succ rem ih =>
    intro attempt lastResp lastExc _
    simp only [perm_rwr_go, horacle attempt]
    rw [if_pos (by decide : retryable_status 503 = true)]
    cases rem with
    | zero =>
      simp only [perm_rwr_go]
      simp [List.range_succ]
    | succ rem2 =>
      rw [ih (attempt + 1) (some (503, body)) lastExc (Nat.succ_pos _)]
      simp only [RetryRunN.mk.injEq, true_and]
      refine ⟨by omega, ?_⟩
      conv_rhs => rw [List.range_succ_eq_map, List.map_cons, List.map_map]
      refine List.cons_eq_cons.2 ⟨rfl, ?_⟩
      refine List.map_congr_left ?_
      intro i _
      show min (2 ^ (attempt + 1 + i)) 20 = min (2 ^ (attempt + Nat.succ i)) 20
      have he : attempt + 1 + i = attempt + Nat.succ i := by omega
      rw [he]

theorem backup_go_mixed (oracle : Nat → NetResult) (backoff : ℚ)
    (bodyE bodyOK : List Char) :
    ∀ (remaining attempt : Nat) (lastResp : Option (Nat × List Char))
      (lastExc : Option (List Char)), 0 < remaining →
      (∀ a, a < attempt + remaining - 1 → oracle a = .resp 503 bodyE) →
      oracle (attempt + remaining - 1) = .resp 200 bodyOK →
      (backup_rwr_go oracle backoff attempt remaining lastResp lastExc).outcome
          = .ok 200 bodyOK ∧
      (backup_rwr_go oracle backoff attempt remaining lastResp lastExc).attempts
          = attempt + remaining - 1 := by
  intro remaining
  induction remaining with
  | zero => intro attempt lastResp lastExc h _ _; omega
  | succ rem ih =>
    intro attempt lastResp lastExc _ h503 h200
    rcases Nat.eq_zero_or_pos rem with hrem | hrem
    · subst hrem
      have h200a : oracle attempt = .resp 200 bodyOK := by
        have he : attempt + (0 + 1) - 1 = attempt := by omega
        rwa [he] at h200
      simp only [backup_rwr_go, h200a]
      rw [if_pos (by decide : (200 ≤ 200 ∧ 200 < 300))]
      refine ⟨rfl, ?_⟩
      show attempt = attempt + (0 + 1) - 1
      omega
    · have h503a : oracle attempt = .resp 503 bodyE := h503 attempt (by omega)
      simp only [backup_rwr_go, h503a]
      rw [if_neg (by decide : ¬(200 ≤ 503 ∧ 503 < 300)),
          if_pos (by decide : retryable_status 503 = true)]
      obtain ⟨ho, ha⟩ := ih (attempt + 1) (some (503, bodyE)) lastExc hrem
        (fun a haa => h503 a (by omega))
        (by
          have he : attempt + 1 + rem - 1 = attempt + (rem + 1) - 1 := by omega
          rw [he]
          exact h200)
      refine ⟨ho, ?_⟩
      show (backup_rwr_go oracle backoff (attempt + 1) rem (some (503, bodyE))
        lastExc).attempts = attempt + (rem + 1) - 1
      rw [ha]
      omega

theorem perm_go_mixed (oracle : Nat → NetResult) (bodyE bodyOK : List Char) :
    ∀ (remaining attempt : Nat) (lastResp : Option (Nat × List Char))
      (lastExc : Option (List Char)), 0 < remaining →
      (∀ a, a < attempt + remaining - 1 → oracle a = .resp 503 bodyE) →
      oracle (attempt + remaining - 1) = .resp 200 bodyOK →
      (perm_rwr_go oracle attempt remaining lastResp lastExc).outcome
          = .ok 200 bodyOK ∧
      (perm_rwr_go oracle attempt remaining lastResp lastExc).attempts
          = attempt + remaining - 1 := by
  intro remaining
  induction remaining with
  | zero => intro attempt lastResp lastExc h _ _; omega
  | succ rem ih =>
    intro attempt lastResp lastExc _ h503 h200
    rcases Nat.eq_zero_or_pos rem with hrem | hrem
    · subst hrem
      have h200a : oracle attempt = .resp 200 bodyOK := by
        have he : attempt + (0 + 1) - 1 = attempt := by omega
        rwa [he] at h200
      simp only [perm_rwr_go, h200a]
      rw [if_neg (by decide : ¬retryable_status 200 = true)]
      refine ⟨rfl, ?_⟩
      show attempt = attempt + (0 + 1) - 1
      omega
    · have h503a : oracle attempt = .resp 503 bodyE := h503 attempt (by omega)
      simp only [perm_rwr_go, h503a]
      rw [if_pos (by decide : retryable_status 503 = true)]
      obtain ⟨ho, ha⟩ := ih (attempt + 1) (some (503, bodyE)) lastExc hrem
        (fun a haa => h503 a (by omega))
        (by
          have he : attempt + 1 + rem - 1 = attempt + (rem + 1) - 1 := by omega
          rw [he]
          exact h200)
      refine ⟨ho, ?_⟩
      show (perm_rwr_go oracle (attempt + 1) rem (some (503, bodyE))
        lastExc).attempts = attempt + (rem + 1) - 1
      rw [ha]
      omega

/-- C5: with a stub returning 503 for the first `max_retries - 1` attempts
and 200 on the last, both `request_with_retry` variants return the
successful response; with 503 on every attempt, both fail with a
retry-exhaustion error after exactly `max_retries` attempts, carrying the
last observed status (503) and a bounded preview of the response body. -/
theorem c5_retry_termination :
    (∀ m : Nat, 1 ≤ m → ∀ (backoff : ℚ) (bodyE bodyOK : List Char),
      (backup_request_with_retry
          (fun a => if a < m then .resp 503 bodyE else .resp 200 bodyOK)
          m backoff).outcome = .ok 200 bodyOK ∧
      (backup_request_with_retry
          (fun a => if a < m then .resp 503 bodyE else .resp 200 bodyOK)
          m backoff).attempts = m) ∧
    (∀ m : Nat, 1 ≤ m → ∀ (backoff : ℚ) (body : List Char),
      (backup_request_with_retry (fun _ => .resp 503 body) m backoff).outcome
          = .exhaustedResp 503 (safe_json_preview body 800) ∧
      (backup_request_with_retry (fun _ => .resp 503 body) m backoff).attempts = m) ∧
    (∀ body : List Char, (safe_json_preview body 800).length ≤ 801) ∧
    (∀ m : Nat, 1 ≤ m → ∀ bodyE bodyOK : List Char,
      (perm_request_with_retry
          (fun a => if a < m then .resp 503 bodyE else .resp 200 bodyOK) m).outcome
          = .ok 200 bodyOK ∧
      (perm_request_with_retry
          (fun a => if a < m then .resp 503 bodyE else .resp 200 bodyOK) m).attempts
          = m) ∧
    (∀ m : Nat, 1 ≤ m → ∀ body : List Char,
      (perm_request_with_retry (fun _ => .resp 503 body) m).outcome
          = .exhaustedResp 503 (perm_body_preview body) ∧
      (perm_request_with_retry (fun _ => .resp 503 body) m).attempts = m) ∧
    (∀ body : List Char, (perm_body_preview body).length ≤ 814) := by
  refine ⟨?_, ?_, ?_, ?_, ?_, ?_⟩
  · intro m hm backoff bodyE bodyOK
    unfold backup_request_with_retry
    obtain ⟨ho, ha⟩ := backup_go_mixed
      (fun a => if a < m then .resp 503 bodyE else .resp 200 bodyOK) backoff bodyE bodyOK
      m 1 none none (by omega)
      (fun a haa => by
        have haam : a < m := by omega
        simp [haam])
      (by
        have h1 : 1 + m - 1 = m := by omega
        rw [h1]
        simp)
    exact ⟨ho, by rw [ha]; omega⟩
  · intro m hm backoff body
    unfold backup_request_with_retry
    rw [backup_go_all_503 (fun _ => .resp 503 body) backoff body (fun a => rfl)
      m 1 none none (by omega)]
    refine ⟨rfl, ?_⟩
    show 1 + m - 1 = m
    omega
  · intro body
    unfold safe_json_preview
    by_cases h : (stripChars body).length ≤ 800
    · rw [if_pos h]
      omega
    · rw [if_neg h]
      simp [List.length_take]
  · intro m hm bodyE bodyOK
    unfold perm_request_with_retry
    obtain ⟨ho, ha⟩ := perm_go_mixed
      (fun a => if a < m then .resp 503 bodyE else .resp 200 bodyOK) bodyE bodyOK
      m 1 none none (by omega)
      (fun a haa => by
        have haam : a < m := by omega
        simp [haam])
      (by
        have h1 : 1 + m - 1 = m := by omega
        rw [h1]
        simp)
    exact ⟨ho, by rw [ha]; omega⟩
  · intro m hm body
    unfold perm_request_with_retry
    rw [perm_go_all_503 (fun _ => .resp 503 body) body (fun a => rfl)
      m 1 none none (by omega)]
    refine ⟨rfl, ?_⟩
    show 1 + m - 1 = m
    omega
  · intro body
    unfold perm_body_preview
    by_cases h : (replaceBackslashN (stripChars body)).length > 800
    · rw [if_pos h]
      simp [List.length_take]
    · rw [if_neg h]
      omega

/-- Witness for C5: three attempts, two 503s then a 200, succeed on the
third attempt; three straight 503s exhaust after exactly three attempts. -/
theorem c5_witness :
    (backup_request_with_retry
        (fun a => if a < 3 then .resp 503 "err".toList else .resp 200 "ok".toList)
        3 1).outcome = .ok 200 "ok".toList ∧
    (backup_request_with_retry (fun _ => .resp 503 "err".toList) 3 1).attempts = 3 :=
  ⟨(c5_retry_termination.1 3 (by norm_num) 1 "err".toList "ok".toList).1,
   (c5_retry_termination.2.1 3 (by norm_num) 1 "err".toList).2⟩

/-- A server that always answers 503. -/
def oracle503 : Nat → NetResult :=
  fun _ => NetResult.resp 503 "Service Unavailable".toList

/-- C6 counterexample: with its default five attempts all hitting 503,
`update_user_permissions.request_with_retry` sleeps 2, 4, 8, 16, 20
seconds — no base makes that sequence equal `base * 2^(attempt-1)` (the
cap at 20 breaks the claimed formula), and none of the hand-rolled retry
loops reads a Retry-After hint. -/
theorem c6_counterexample :
    (perm_request_with_retry oracle503 5).sleeps = [2, 4, 8, 16, 20] ∧
    ∀ base : ℚ,
      ¬ (∀ a, 1 ≤ a → a ≤ 5 →
          (((perm_request_with_retry oracle503 5).sleeps.getD (a - 1) 0 : Nat) : ℚ)
            = base * 2 ^ (a - 1)) := by
  have hs : (perm_request_with_retry oracle503 5).sleeps = [2, 4, 8, 16, 20] := by
    decide
  refine ⟨hs, ?_⟩
  intro base h
  have h1 := h 1 (le_refl 1) (by norm_num)
  have h5 := h 5 (by norm_num) (le_refl 5)
  rw [hs] at h1 h5
  norm_num at h1 h5
  rw [← h1] at h5
  norm_num at h5

/-- C6 (amended): on an all-503 run, the backup/email/bulk-create retry
loops sleep exactly `backoff * 2^(attempt-1)` seconds before each retry,
while the permissions loop sleeps `min(2^attempt, 20)`; neither delay
depends on the response content, so a server-supplied Retry-After hint is
never honored by these loops (only the urllib3 session of the subjects
script respects it). -/
theorem c6_backoff_amended :
    (∀ (m : Nat) (backoff : ℚ) (body : List Char),
        (backup_request_with_retry (fun _ => .resp 503 body) m backoff).sleeps
          = (List.range m).map (fun i => backoff * 2 ^ i)) ∧
    (∀ (m : Nat) (body : List Char),
        (perm_request_with_retry (fun _ => .resp 503 body) m).sleeps
          = (List.range m).map (fun i => min (2 ^ (i + 1)) 20)) ∧
    (∀ (m : Nat) (backoff : ℚ) (body1 body2 : List Char),
        (backup_request_with_retry (fun _ => .resp 503 body1) m backoff).sleeps
          = (backup_request_with_retry (fun _ => .resp 503 body2) m backoff).sleeps) := by
  refine ⟨?_, ?_, ?_⟩
  · intro m backoff body
    cases m with
    | zero => rfl
    | succ m2 =>
      unfold backup_request_with_retry
      rw [backup_go_all_503 (fun _ => .resp 503 body) backoff body (fun a => rfl)
        (m2 + 1) 1 none none (Nat.succ_pos _)]
      show (List.range (m2 + 1)).map (fun i => backoff * 2 ^ (1 + i - 1))
        = (List.range (m2 + 1)).map (fun i => backoff * 2 ^ i)
      refine List.map_congr_left ?_
      intro i _
      have he : 1 + i - 1 = i := by omega
      rw [he]
  · intro m body
    cases m with
    | zero => rfl
    | succ m2 =>
      unfold perm_request_with_retry
      rw [perm_go_all_503 (fun _ => .resp 503 body) body (fun a => rfl)
        (m2 + 1) 1 none none (Nat.succ_pos _)]
      show (List.range (m2 + 1)).map (fun i => min (2 ^ (1 + i)) 20)
        = (List.range (m2 + 1)).map (fun i => min (2 ^ (i + 1)) 20)
      refine List.map_congr_left ?_
      intro i _
      have he : 1 + i = i + 1 := by omega
      rw [he]
  · intro m backoff body1 body2
    cases m with
    | zero => rfl
    | succ m2 =>
      unfold backup_request_with_retry
      rw [backup_go_all_503 (fun _ => .resp 503 body1) backoff body1 (fun a => rfl)
        (m2 + 1) 1 none none (Nat.succ_pos _),
        backup_go_all_503 (fun _ => .resp 503 body2) backoff body2 (fun a => rfl)
        (m2 + 1) 1 none none (Nat.succ_pos _)]

/-! Paginators.  A list endpoint is an oracle mapping the 1-based page
number to a response; JSON payloads are restricted to the shapes the
paginators distinguish (a bare array, or an object carrying optional
`results`/`items` arrays and an optional integer `totalCount`). -/

/-- Response of a list endpoint for one page. -/
inductive ListResponse
  | arr (items : List Nat)
  | obj (results : Option (List Nat)) (itemsField : Option (List Nat))
      (totalCount : Option Int)
  | other
deriving DecidableEq, Repr

/-- Result of a pagination walk: the collected summaries and the number
of pages fetched, a shape error, or fuel exhaustion (the loop still
running). -/
inductive PagResult
  | done (users : List Nat) (pages : Nat)
  | fail
  | outOfFuel
deriving DecidableEq, Repr

/-- Loop body of `backup_user_permissions.get_all_users` (the same shape
as `update_user_email_domains.get_all_users`): a bare array is returned
as the complete result; otherwise `results` (or `[]`) is appended, then
the loop stops when `totalCount` is known and reached, or when the page
held zero items; the `for _ in range(max_pages)` bound returns the
accumulator when it runs out. -/
def backup_gau_go (oracle : Nat → ListResponse) :
    List Nat → Nat → Nat → Nat → PagResult
  | acc, _page, fetched, 0 => .done acc fetched
  | acc, page, fetched, fuel + 1 =>
    match oracle page with
    | .arr items => .done items (fetched + 1)
    | .other => .fail
    | .obj results _ tc =>
      let rs := results.getD []
      let acc := acc ++ rs
      match tc with
      | some n =>
        if (acc.length : Int) ≥ n then .done acc (fetched + 1)
        else if rs.length = 0 then .done acc (fetched + 1)
        else backup_gau_go oracle acc (page + 1) (fetched + 1) fuel
      | none =>
        if rs.length = 0 then .done acc (fetched + 1)
        else backup_gau_go oracle acc (page + 1) (fetched + 1) fuel

def backup_get_all_users (oracle : Nat → ListResponse) : PagResult :=
  backup_gau_go oracle [] 1 0 10000

/-- Python `payload.get("results") or payload.get("items") or []`: the
first non-empty list among `results` and `items`. -/
def firstTruthyList (results itemsField : Option (List Nat)) : List Nat :=
  match results with
  | some (x :: xs) => x :: xs
  | _ =>
    match itemsField with
    | some (y :: ys) => y :: ys
    | _ => []

/-- Loop body of `update_user_permissions.get_all_users`: a `while True`
loop (no page bound — fuel exhaustion models it still running); a bare
array response is an attribute error (`payload.get` on a list); stops
when `totalCount` is known and reached, or when the page held zero
items.  There is no short-page check: `pageSize` never enters the
termination decision. -/
def perm_gau_go (oracle : Nat → ListResponse) :
    List Nat → Nat → Nat → Nat → PagResult
  | _acc, _page, _fetched, 0 => .outOfFuel
  | acc, page, fetched, fuel + 1 =>
    match oracle page with
    | .arr _ => .fail
    | .other => .fail
    | .obj results itemsField tc =>
      let rs := firstTruthyList results itemsField
      let acc := acc ++ rs
      match tc with
      | some n =>
        if (acc.length : Int) ≥ n then .done acc (fetched + 1)
        else if rs.isEmpty then .done acc (fetched + 1)
        else perm_gau_go oracle acc (page + 1) (fetched + 1) fuel
      | none =>
        if rs.isEmpty then .done acc (fetched + 1)
        else perm_gau_go oracle acc (page + 1) (fetched + 1) fuel

def perm_get_all_users (oracle : Nat → ListResponse) (fuel : Nat) : PagResult :=
  perm_gau_go oracle [] 1 0 fuel

/-- Order-preserving de-duplication, as done at the end of
`fetch_all_subject_ids_with_progress`. -/
def dedup_go (seen : List Nat) : List Nat → List Nat
  | [] => []
  | x :: xs => if x ∈ seen then dedup_go seen xs else x :: dedup_go (x :: seen) xs

def dedup (l : List Nat) : List Nat := dedup_go [] l

/-- Loop body of
`clinical_concepts_status_docus_count_ALL_subjects.fetch_all_subject_ids_with_progress`:
each page yields ids plus an optional `totalCount` captured on first
sight; an empty page stops, then a SHORT page stops (checked before the
`totalCount` condition), then `totalCount` reached stops; the collected
ids are de-duplicated at the end. -/
def subjects_fetch_go (oracle : Nat → List Nat × Option Int) (pageSize : Nat) :
    List Nat → Option Int → Nat → Nat → Nat → PagResult
  | _acc, _texp, _page, _fetched, 0 => .outOfFuel
  | acc, texp, page, fetched, fuel + 1 =>
    let r := oracle page
    let texp := match texp with
      | none => r.2
      | some n => some n
    if r.1.isEmpty then .done (dedup acc) (fetched + 1)
    else
      let acc := acc ++ r.1
      if r.1.length < pageSize then .done (dedup acc) (fetched + 1)
      else
        match texp with
        | some n =>
          if (acc.length : Int) ≥ n then .done (dedup acc) (fetched + 1)
          else subjects_fetch_go oracle pageSize acc (some n) (page + 1) (fetched + 1) fuel
        | none => subjects_fetch_go oracle pageSize acc none (page + 1) (fetched + 1) fuel

def subjects_fetch_all (oracle : Nat → List Nat × Option Int) (pageSize fuel : Nat) :
    PagResult :=
  subjects_fetch_go oracle pageSize [] none 1 0 fuel

/-- A first page of three items followed by empty pages, with no
`totalCount` — shorter than any realistic `pageSize`. -/
def ex_short_page_oracle : Nat → ListResponse :=
  fun page => if page = 1 then .obj (some [1, 2, 3]) none none
    else .obj (some []) none none

/-- C3 counterexample: the permissions paginator, served a 3-item first
page with `pageSize = 50` and no `totalCount`, fetches a second page —
the claimed rule (c) (fewer items than `pageSize` stops) would finish
after one page. -/
theorem c3_counterexample :
    perm_get_all_users ex_short_page_oracle 10 = PagResult.done [1, 2, 3] 2 ∧
    (2 : Nat) ≠ 1 := by
  exact ⟨by decide, by decide⟩

/-- A subjects endpoint serving a short first page while `totalCount`
announces ten. -/
def ex_subjects_oracle : Nat → List Nat × Option Int :=
  fun _ => ([1, 2, 3], some 10)

theorem backup_gau_go_arr (oracle : Nat → ListResponse) (acc : List Nat)
    (page fetched fuel : Nat) (xs : List Nat) (h : oracle page = .arr xs) :
    backup_gau_go oracle acc page fetched (fuel + 1) = .done xs (fetched + 1) := by
  simp only [backup_gau_go]
  rw [h]

/-- C3 (amended): per page, the backup/email paginators stop in order:
(a) a bare-sequence response is returned as the complete result after
that single fetch; (b) known `totalCount` reached stops; (c) zero items
stops; otherwise the page number advances by one.  The permissions
paginator does (b)-(c) only (a bare sequence is a shape error for it),
and none of the three stops on a short non-empty page — `pageSize` never
enters the decision; the subjects fetcher is the one that stops on a
short page, and it checks the short page before `totalCount`. -/
theorem c3_termination_amended :
    (∀ (xs : List Nat) (oracle : Nat → ListResponse), oracle 1 = .arr xs →
        backup_get_all_users oracle = .done xs 1) ∧
    (∀ (oracle : Nat → ListResponse) (rs : List Nat) (n : Int) (fuel : Nat),
        oracle 1 = .obj (some rs) none (some n) → (rs.length : Int) ≥ n →
        0 < fuel → perm_get_all_users oracle fuel = .done rs 1) ∧
    (∀ (oracle : Nat → ListResponse) (fuel : Nat),
        oracle 1 = .obj (some []) none none → 0 < fuel →
        perm_get_all_users oracle fuel = .done [] 1) ∧
    (∀ (oracle : Nat → ListResponse) (rs : List Nat) (fuel : Nat),
        oracle 1 = .obj (some rs) none none → rs ≠ [] →
        perm_get_all_users oracle (fuel + 1) = perm_gau_go oracle rs 2 1 fuel) ∧
    subjects_fetch_all ex_subjects_oracle 5 10 = .done [1, 2, 3] 1 := by
  refine ⟨?_, ?_, ?_, ?_, by decide⟩
  · intro xs oracle h
    show backup_gau_go oracle [] 1 0 (9999 + 1) = PagResult.done xs 1
    exact backup_gau_go_arr oracle [] 1 0 9999 xs h
  · intro oracle rs n fuel h hge hfuel
    cases fuel with
    | zero => omega
    | succ f =>
      unfold perm_get_all_users
      simp only [perm_gau_go]
      rw [h]
      have hft : firstTruthyList (some rs) none = rs := by
        cases rs <;> rfl
      simp only [hft, List.nil_append]
      rw [if_pos hge]
  · intro oracle fuel h hfuel
    cases fuel with
    | zero => omega
    | succ f =>
      unfold perm_get_all_users
      simp only [perm_gau_go]
      rw [h]
      rfl
  · intro oracle rs fuel h hne
    unfold perm_get_all_users
    simp only [perm_gau_go]
    rw [h]
    have hft : firstTruthyList (some rs) none = rs := by
      cases rs <;> rfl
    simp only [hft, List.nil_append]
    rw [if_neg (by simpa using hne)]

/-- Witness for C3 (amended): a concrete bare-array endpoint is returned
whole after one fetch. -/
theorem c3_amended_witness :
    backup_get_all_users (fun _ => ListResponse.arr [7, 8]) = .done [7, 8] 1 :=
  c3_termination_amended.1 [7, 8] (fun _ => ListResponse.arr [7, 8]) rfl

/-- Page `page` (1-based) of the list `xs` served in chunks of `P`. -/
def chunkPage (xs : List Nat) (P page : Nat) : List Nat :=
  (xs.drop ((page - 1) * P)).take P

/-- A list endpoint serving `xs` in pages of size `P`, object shape with
`results` and `totalCount`. -/
def chunkOracle (xs : List Nat) (P : Nat) : Nat → ListResponse :=
  fun page => .obj (some (chunkPage xs P page)) none (some (xs.length : Int))

theorem backup_gau_go_empty_tc (oracle : Nat → ListResponse) (fuel : Nat) (n : Int)
    (h : oracle 1 = .obj (some []) none (some n)) (hn : (0 : Int) ≥ n) :
    backup_gau_go oracle [] 1 0 (fuel + 1) = .done [] 1 := by
  simp only [backup_gau_go]
  rw [h]
  simp only [Option.getD_some, List.append_nil, List.length_nil, Nat.cast_zero]
  rw [if_pos hn]

theorem backup_chunk_complete (xs : List Nat) (P : Nat) (hP : 0 < P) :
    ∀ (fuel q c : Nat) (acc : List Nat), acc = xs.take (q * P) →
      q * P < xs.length → xs.length ≤ q * P + fuel * P →
      ∃ k, backup_gau_go (chunkOracle xs P) acc (q + 1) c fuel = .done xs k := by
  intro fuel
  induction fuel with
  | zero =>
    intro q c acc hacc hlt hle
    rw [Nat.zero_mul, Nat.add_zero] at hle
    exact absurd hlt (not_lt.2 hle)
  | succ fuel ih =>
    intro q c acc hacc hlt hle
    simp only [backup_gau_go, chunkOracle, Option.getD_some]
    have hchunk : chunkPage xs P (q + 1) = (xs.drop (q * P)).take P := by
      unfold chunkPage
      rw [Nat.add_sub_cancel]
    have hacc2 : acc ++ chunkPage xs P (q + 1) = xs.take (q * P + P) := by
      rw [hchunk, hacc, List.take_add]
    rcases le_or_lt xs.length (q * P + P) with hge | hlt2
    · have hlen : (acc ++ chunkPage xs P (q + 1)).length = xs.length := by
        rw [hacc2, List.length_take]
        omega
      have hcond : ((acc ++ chunkPage xs P (q + 1)).length : Int) ≥ (xs.length : Int) := by
        rw [hlen]
      rw [if_pos hcond]
      refine ⟨c + 1, ?_⟩
      rw [hacc2, List.take_of_length_le hge]
    · have hlen : (acc ++ chunkPage xs P (q + 1)).length = q * P + P := by
        rw [hacc2, List.length_take]
        omega
      have hcond : ¬ ((acc ++ chunkPage xs P (q + 1)).length : Int) ≥ (xs.length : Int) := by
        rw [hlen]
        push_cast
        omega
      rw [if_neg hcond]
      have hrs : (chunkPage xs P (q + 1)).length = P := by
        rw [hchunk, List.length_take, List.length_drop]
        omega
      rw [if_neg (by omega : ¬ (chunkPage xs P (q + 1)).length = 0)]
      obtain ⟨k, hk⟩ := ih (q + 1) (c + 1) (acc ++ chunkPage xs P (q + 1))
        (by rw [hacc2, Nat.succ_mul])
        (by rw [Nat.succ_mul]; exact hlt2)
        (by rw [Nat.succ_mul]; rw [Nat.succ_mul] at hle; omega)
      exact ⟨k, hk⟩

/-- C7: served any duplicate-free summary list `xs` in pages of size
`P > 0` (with a final short page), the backup paginator collects exactly
`xs` — all `N` summaries, no duplicates — under both the
object-with-`results`-plus-`totalCount` shape and the bare-array shape. -/
theorem c7_pagination_completeness :
    (∀ (xs : List Nat) (P : Nat), 0 < P → xs.length ≤ 10000 * P →
        ∃ k, backup_get_all_users (chunkOracle xs P) = .done xs k) ∧
    (∀ xs : List Nat, backup_get_all_users (fun _ => ListResponse.arr xs)
        = .done xs 1) ∧
    (∀ (xs us : List Nat) (P k : Nat), 0 < P → xs.length ≤ 10000 * P → xs.Nodup →
        backup_get_all_users (chunkOracle xs P) = .done us k →
        us = xs ∧ us.length = xs.length ∧ us.Nodup) := by
  have hmain : ∀ (xs : List Nat) (P : Nat), 0 < P → xs.length ≤ 10000 * P →
      ∃ k, backup_get_all_users (chunkOracle xs P) = .done xs k := by
    intro xs P hP hbound
    rcases Nat.eq_zero_or_pos xs.length with hN | hN
    · have hxs : xs = [] := List.length_eq_zero.1 hN
      subst hxs
      refine ⟨1, ?_⟩
      show backup_gau_go (chunkOracle [] P) [] 1 0 (9999 + 1) = .done [] 1
      refine backup_gau_go_empty_tc _ 9999 0 ?_ (by norm_num)
      simp [chunkOracle, chunkPage]
    · have h0 : (0 : Nat) * P < xs.length := by
        rw [Nat.zero_mul]
        exact hN
      have hle : xs.length ≤ 0 * P + 10000 * P := by
        rw [Nat.zero_mul, Nat.zero_add]
        exact hbound
      obtain ⟨k, hk⟩ := backup_chunk_complete xs P hP 10000 0 0 []
        (by rw [Nat.zero_mul]; rfl) h0 hle
      exact ⟨k, hk⟩
  refine ⟨hmain, ?_, ?_⟩
  · intro xs
    show backup_gau_go (fun _ => ListResponse.arr xs) [] 1 0 (9999 + 1) = .done xs 1
    exact backup_gau_go_arr _ [] 1 0 9999 xs rfl
  · intro xs us P k hP hbound hnd heq
    obtain ⟨k2, hk2⟩ := hmain xs P hP hbound
    rw [heq] at hk2
    have hus : us = xs := by
      injection hk2 with h1 h2
    subst hus
    exact ⟨rfl, rfl, hnd⟩

/-- Witness for C7: five summaries served in pages of two are collected
completely. -/
theorem c7_witness :
    ∃ k, backup_get_all_users (chunkOracle [10, 11, 12, 13, 14] 2)
      = .done [10, 11, 12, 13, 14] k :=
  c7_pagination_completeness.1 [10, 11, 12, 13, 14] 2 (by norm_num) (by norm_num)

end Scripts
